import Mathlib

/-!
Shallow embedding of the voice-to-MIDI core of the VocalSynth workstation:
the YIN-derived pitch estimator (`detectPitch`), the frequency quantizer
(`frequencyToMidi`), the note-name formatter (`midiToNoteName`) from
src/services/pitchDetection.ts, and the per-tick note-event tracker /
recording segmenter embedded in `audioLoop` and `toggleRecording` of
src/App.tsx.

Modelling conventions:
- JavaScript numbers are modelled as exact rationals (`ℚ`); float rounding
  is out of scope.  `Math.round` is Mathlib's `round` (half toward +∞, as
  in JS), JS `%` on integers is `Int.tmod` (truncated remainder, sign of
  the dividend), and `Math.floor(m / 12)` is `Int.fdiv m 12`.
- Audio frames (`Float32Array`) are `List ℚ`; out-of-range reads never
  happen on the paths modelled (all indices are in bounds), so `List.getD`
  with default `0` is used.
- `Math.log2` is transcendental, so `frequencyToMidi` is parameterized by
  an arbitrary `log2 : ℚ → ℚ`; every property proved about it holds for
  all such functions (the invalid-input guard does not consult `log2`).
- `number | null` return types become `Option`.
-/

/-! ## PitchEstimator (src/services/pitchDetection.ts, detectPitch) -/

/-- Step 1 of `detectPitch`: the difference function
`d(τ) = Σ_{i < ⌊N/2⌋} (x[i] − x[i+τ])²`.  The code accumulates into
`yinBuffer[tau]` over `i < yinBuffer.length = ⌊N/2⌋`. -/
def diffAt (buffer : List ℚ) (tau : ℕ) : ℚ :=
  ((List.range (buffer.length / 2)).map
    (fun i =>
      (buffer.getD i 0 - buffer.getD (i + tau) 0) *
        (buffer.getD i 0 - buffer.getD (i + tau) 0))).sum

/-- The running sum after processing lags `1..tau` in step 2 of
`detectPitch`; the code reads the raw `yinBuffer[tau]` (= `d(tau)`) before
overwriting it, so the sum is over the raw difference values. -/
def runningSumAt (buffer : List ℚ) (tau : ℕ) : ℚ :=
  ((List.range tau).map (fun t => diffAt buffer (t + 1))).sum

/-- Step 2 of `detectPitch`: the cumulative-mean-normalized difference.
`yinBuffer[0] = 1`; for `τ ≥ 1`, `yinBuffer[τ] *= τ / (runningSum || 1)`,
i.e. the divisor is guarded to `1` when the running sum is `0`. -/
def cmnd (buffer : List ℚ) (tau : ℕ) : ℚ :=
  if tau = 0 then 1
  else
    diffAt buffer tau * tau /
      (if runningSumAt buffer tau = 0 then 1 else runningSumAt buffer tau)

/-- The YIN absolute threshold (`const threshold = 0.15`). -/
def yinThreshold : ℚ := 3 / 20

/-- Step 3, first phase of `detectPitch`: the first lag `t` in
`[1, ⌊N/2⌋)` with `yinBuffer[t] < 0.15`, if any. -/
def thresholdTau (buffer : List ℚ) : Option ℕ :=
  (List.range' 1 (buffer.length / 2 - 1)).find?
    (fun t => decide (cmnd buffer t < yinThreshold))

/-- Step 3, fallback phase of `detectPitch`: the loop
`minVal := 1; tau := −1; for t in [1, ⌊N/2⌋): if yin[t] < minVal then
(minVal, tau) := (yin[t], t)`.  Returns the final `(minVal, tau)`, with
`tau = -1` modelled as `none`. -/
def fallbackScan (buffer : List ℚ) : ℚ × Option ℕ :=
  (List.range' 1 (buffer.length / 2 - 1)).foldl
    (fun acc t => if cmnd buffer t < acc.1 then (cmnd buffer t, some t) else acc)
    (1, none)

/-- The lag selected by steps 3 of `detectPitch`: the threshold hit if one
exists, otherwise the global-minimum fallback, rejected (`none`) when the
minimum exceeds `0.4`. -/
def chooseTau (buffer : List ℚ) : Option ℕ :=
  match thresholdTau buffer with
  | some t => some t
  | none =>
    let scan := fallbackScan buffer
    if scan.1 > 2 / 5 then none else scan.2

/-- The parabolic-interpolation denominator `2·(2·s1 − s2 − s0)` of step 4
of `detectPitch` around lag `tau`. -/
def interpDenominator (buffer : List ℚ) (tau : ℕ) : ℚ :=
  2 * (2 * cmnd buffer tau - cmnd buffer (tau + 1) - cmnd buffer (tau - 1))

/-- Function `detectPitch(buffer, sampleRate)` from src/services/pitchDetection.ts:
YIN difference function, cumulative-mean normalization, absolute-threshold
search with global-minimum fallback, and parabolic interpolation (skipped
at a boundary lag or when the denominator is zero). -/
def detectPitch (buffer : List ℚ) (sampleRate : ℚ) : Option ℚ :=
  match chooseTau buffer with
  | none => none
  | some tau =>
    if 0 < tau ∧ tau < buffer.length / 2 - 1 then
      if interpDenominator buffer tau ≠ 0 then
        some (sampleRate /
          (tau + (cmnd buffer (tau + 1) - cmnd buffer (tau - 1)) /
            interpDenominator buffer tau))
      else if 0 < tau then some (sampleRate / tau) else none
    else if 0 < tau then some (sampleRate / tau) else none

/-! ## FrequencyQuantizer and NoteNameFormatter -/

/-- Function `frequencyToMidi(frequency)` from src/services/pitchDetection.ts:
`if (!frequency || frequency <= 0) return 0;` then
`Math.round(69 + 12 * Math.log2(frequency / 440))`.  Parameterized by the
`log2` implementation; the invalid-frequency guard never consults it. -/
def frequencyToMidi (log2 : ℚ → ℚ) (frequency : ℚ) : ℤ :=
  if frequency ≤ 0 then 0
  else round ((69 : ℚ) + 12 * log2 (frequency / 440))

/-- The note-name table `['C','C#','D','D#','E','F','F#','G','G#','A','A#','B']`. -/
def noteNames : List String :=
  ["C", "C#", "D", "D#", "E", "F"] ++ ["F#", "G", "G#", "A", "A#", "B"]

/-- The pitch-class index of `midiToNoteName`: `((m % 12) + 12) % 12` with
JS truncated `%` (`Int.tmod`). -/
def noteClassIndex (m : ℤ) : ℤ :=
  (m.tmod 12 + 12).tmod 12

/-- Function `midiToNoteName(midi)` from src/services/pitchDetection.ts, on integer
inputs (every call site passes the integer result of `frequencyToMidi`, so
`Math.round(midi) = midi` and the NaN/undefined guard cannot fire):
note letter from `((m % 12) + 12) % 12`, octave `Math.floor(m / 12) − 1`. -/
def midiToNoteName (midi : ℤ) : String :=
  noteNames.getD (noteClassIndex midi).toNat "" ++ toString (midi.fdiv 12 - 1)

/-- Composition of the per-tick pitch pipeline of `audioLoop` in
src/App.tsx: `const freq = detectPitch(buffer, sampleRate); const midi =
freq ? frequencyToMidi(freq) : null;` (a `freq` of `0` is falsy in JS). -/
def pitchPipeline (log2 : ℚ → ℚ) (sampleRate : ℚ) (buffer : List ℚ) : Option ℤ :=
  match detectPitch buffer sampleRate with
  | none => none
  | some freq => if freq = 0 then none else some (frequencyToMidi log2 freq)

/-! ## NoteEventTracker and RecordingSegmenter (src/App.tsx, audioLoop) -/

/-- Operating modes of the workstation (`WorkstationMode` in src/types.ts). -/
inductive WorkstationMode
  | idle
  | midi
  | voice
  | record
deriving DecidableEq, Repr

/-- A recorded note (`RecordedNote` in src/types.ts): note label, start
offset inside the recording, duration. -/
structure RecordedNote where
  note : String
  time : ℚ
  duration : ℚ
deriving DecidableEq, Repr

/-- The open-note record held in `activeNoteStartRef` of src/App.tsx:
`{ note: string, start: number, time: number }`. -/
structure ActiveNoteStart where
  note : String
  start : ℚ
  time : ℚ
deriving DecidableEq, Repr

/-- The mutable state of `audioLoop` that the note-event tracker and
recording segmenter read and write each tick: `stateRef.current.lastMidi`,
`activeNoteStartRef.current` and `recordingNotesRef.current`. -/
structure LoopState where
  lastMidi : Option ℤ
  activeNoteStart : Option ActiveNoteStart
  recordingNotes : List RecordedNote
deriving DecidableEq, Repr

/-- The per-tick inputs of `audioLoop`: the analyser frame, the operating
mode, the playback flag and the current time (`Tone.now()`). -/
structure TickInput where
  buffer : List ℚ
  mode : WorkstationMode
  isPlayingBack : Bool
  now : ℚ

/-- Configuration held fixed across the ticks under study: the
sensitivity gate, microphone boost, the recording start time, and the
frame-to-pitch-index pipeline (instantiated by `pitchPipeline` in the
app; the tracker theorems hold for every pipeline). -/
structure LoopConfig where
  sensitivity : ℚ
  micBoost : ℚ
  recordingStartTime : ℚ
  pitchOf : List ℚ → Option ℤ

/-- A note event emitted to the synthesizer, identified by its pitch
index (the code passes `midiToNoteName` of this index to
`triggerAttack` / `triggerRelease`). -/
inductive NoteEvent
  | attack (midi : ℤ)
  | release (midi : ℤ)
deriving DecidableEq, Repr

/-- Mean of the boosted squared samples,
`sum / buffer.length` with `sum = Σ (buffer[i] * micBoost)²`
(src/App.tsx lines 136-141); the code gates on its square root. -/
def meanSquare (micBoost : ℚ) (buffer : List ℚ) : ℚ :=
  ((buffer.map (fun x => (x * micBoost) * (x * micBoost))).sum) / buffer.length

/-- The amplitude gate `rms > sensitivity` of src/App.tsx, stated without
square roots: since `rms = √meanSq ≥ 0`, the comparison holds exactly when
the sensitivity is negative or its square is below the mean square. -/
def gateOpen (sensitivity meanSq : ℚ) : Prop :=
  sensitivity < 0 ∨ sensitivity * sensitivity < meanSq

instance (s m : ℚ) : Decidable (gateOpen s m) := by
  unfold gateOpen
  exact inferInstance

/-- Arming condition of a tick:
`rms > stateRef.current.sensitivity && isMidiActive` where
`isMidiActive = (mode === MIDI || mode === RECORD)` (src/App.tsx 150-152). -/
def armedTick (cfg : LoopConfig) (inp : TickInput) : Prop :=
  gateOpen cfg.sensitivity (meanSquare cfg.micBoost inp.buffer) ∧
    (inp.mode = WorkstationMode.midi ∨ inp.mode = WorkstationMode.record)

instance (cfg : LoopConfig) (inp : TickInput) : Decidable (armedTick cfg inp) := by
  unfold armedTick
  exact inferInstance

/-- Constant `MIN_NOTE_DURATION = 0.05` of src/App.tsx. -/
def minNoteDuration : ℚ := 1 / 20

/-- The duration filter that appears verbatim at all three note-closing
sites of src/App.tsx (lines 160-165, 176-182, 214-219):
`if (duration >= MIN_NOTE_DURATION) recordingNotes.push({note, time, duration})`. -/
def appendIfSustained (a : ActiveNoteStart) (duration : ℚ)
    (notes : List RecordedNote) : List RecordedNote :=
  if minNoteDuration ≤ duration then notes ++ [⟨a.note, a.time, duration⟩]
  else notes

/-- One tick of `audioLoop` (src/App.tsx lines 133-186), restricted to the
tracker/segmenter state and the emitted note events.  The visual RMS
smoothing (`setRmsVolume`) has no effect on this state and is omitted.
Returns the new state and the events of the tick in emission order. -/
def audioLoopStep (cfg : LoopConfig) (inp : TickInput) (s : LoopState) :
    LoopState × List NoteEvent :=
  if inp.isPlayingBack then (s, [])
  else if armedTick cfg inp then
    match cfg.pitchOf inp.buffer with
    | none => (s, [])
    | some midi =>
      if some midi = s.lastMidi then (s, [])
      else
        match s.lastMidi with
        | some prev =>
          let notes1 :=
            if inp.mode = WorkstationMode.record then
              match s.activeNoteStart with
              | some a =>
                appendIfSustained a (inp.now - cfg.recordingStartTime - a.start)
                  s.recordingNotes
              | none => s.recordingNotes
            else s.recordingNotes
          let active1 :=
            if inp.mode = WorkstationMode.record then
              some ⟨midiToNoteName midi, inp.now - cfg.recordingStartTime,
                inp.now - cfg.recordingStartTime⟩
            else s.activeNoteStart
          (⟨some midi, active1, notes1⟩,
           [NoteEvent.release prev, NoteEvent.attack midi])
        | none =>
          let active1 :=
            if inp.mode = WorkstationMode.record then
              some ⟨midiToNoteName midi, inp.now - cfg.recordingStartTime,
                inp.now - cfg.recordingStartTime⟩
            else s.activeNoteStart
          (⟨some midi, active1, s.recordingNotes⟩, [NoteEvent.attack midi])
  else
    match s.lastMidi with
    | none => (s, [])
    | some prev =>
      if inp.mode = WorkstationMode.record then
        match s.activeNoteStart with
        | some a =>
          (⟨none, none,
            appendIfSustained a (inp.now - cfg.recordingStartTime - a.start)
              s.recordingNotes⟩,
           [NoteEvent.release prev])
        | none => (⟨none, none, s.recordingNotes⟩, [NoteEvent.release prev])
      else (⟨none, s.activeNoteStart, s.recordingNotes⟩, [NoteEvent.release prev])

/-- The state at the first tick: no held note, no open recording note,
empty note list. -/
def initialLoopState : LoopState := ⟨none, none, []⟩

/-- Iterated `audioLoopStep` over a list of tick inputs; returns the final
state and the concatenated events of all ticks in order. -/
def runLoop (cfg : LoopConfig) (inputs : List TickInput) (s : LoopState) :
    LoopState × List NoteEvent :=
  match inputs with
  | [] => (s, [])
  | inp :: rest =>
    let stepped := audioLoopStep cfg inp s
    let restRun := runLoop cfg rest stepped.1
    (restRun.1, stepped.2 ++ restRun.2)

/-- Stop branch of `toggleRecording` (src/App.tsx lines 214-219): a
still-open note is flushed with the stop time as implicit release, subject
to the minimum-duration filter. -/
def stopFlush (recordingStartTime stopTime : ℚ) (active : Option ActiveNoteStart)
    (notes : List RecordedNote) : List RecordedNote :=
  match active with
  | none => notes
  | some a => appendIfSustained a (stopTime - recordingStartTime - a.start) notes

/-- Monophonic replay of an event list against a currently-active pitch:
an Attack is legal only when no pitch is active, a Release only for the
active pitch.  Returns `none` on the first violation, otherwise the
active pitch after the list. -/
def playEvents : Option ℤ → List NoteEvent → Option (Option ℤ)
  | a, [] => some a
  | none, NoteEvent.attack m :: es => playEvents (some m) es
  | none, NoteEvent.release _ :: _ => none
  | some _, NoteEvent.attack _ :: _ => none
  | some a, NoteEvent.release m :: es =>
    if a = m then playEvents none es else none

/-! ## Helper lemmas: all-zero frames -/

theorem replicate_zero_getD (n i : ℕ) : (List.replicate n (0 : ℚ)).getD i 0 = 0 := by
  rcases lt_or_le i n with h | h
  · rw [List.getD_eq_getElem _ _ (by simpa using h)]
    simp
  · exact List.getD_eq_default _ _ (by simpa using h)

theorem diffAt_replicate_zero (n tau : ℕ) :
    diffAt (List.replicate n (0 : ℚ)) tau = 0 := by
  unfold diffAt
  apply List.sum_eq_zero
  intro x hx
  obtain ⟨i, _, rfl⟩ := List.mem_map.mp hx
  simp [replicate_zero_getD]

theorem runningSumAt_replicate_zero (n tau : ℕ) :
    runningSumAt (List.replicate n (0 : ℚ)) tau = 0 := by
  unfold runningSumAt
  apply List.sum_eq_zero
  intro x hx
  obtain ⟨t, _, rfl⟩ := List.mem_map.mp hx
  simp [diffAt_replicate_zero]

theorem cmnd_zero_lag (buffer : List ℚ) : cmnd buffer 0 = 1 := by
  unfold cmnd
  simp

theorem cmnd_replicate_zero (n tau : ℕ) (h : tau ≠ 0) :
    cmnd (List.replicate n (0 : ℚ)) tau = 0 := by
  unfold cmnd
  simp [h, diffAt_replicate_zero]

theorem thresholdTau_replicate_zero (n : ℕ) (h : 2 ≤ n / 2) :
    thresholdTau (List.replicate n (0 : ℚ)) = some 1 := by
  unfold thresholdTau
  obtain ⟨k, hk⟩ : ∃ k, n / 2 - 1 = k + 1 := ⟨n / 2 - 2, by omega⟩
  rw [List.length_replicate, hk, List.range'_succ]
  rw [List.find?_cons_of_pos]
  simp [cmnd_replicate_zero, yinThreshold]

theorem chooseTau_replicate_zero (n : ℕ) (h : 2 ≤ n / 2) :
    chooseTau (List.replicate n (0 : ℚ)) = some 1 := by
  unfold chooseTau
  rw [thresholdTau_replicate_zero n h]

/-! ## Claim C2: all-silent frames -/

/-- Claim C2, counterexample: the claim states that `detectPitch` returns
no estimate (`null`) on every all-zero frame.  On the all-zero 8-sample
frame at 48000 Hz the code instead returns `48000 / 1.5 = 32000`: every
normalized difference is `0`, which passes the `0.15` threshold already at
lag 1, and parabolic interpolation refines the lag to `1.5`. -/
theorem detectPitch_silent_counterexample :
    detectPitch (List.replicate 8 (0 : ℚ)) 48000 = some 32000 ∧
      detectPitch (List.replicate 8 (0 : ℚ)) 48000 ≠ none := by
  have h : detectPitch (List.replicate 8 (0 : ℚ)) 48000 = some 32000 := by
    have h2 : (2 : ℕ) ≤ 8 / 2 := by norm_num
    unfold detectPitch
    rw [chooseTau_replicate_zero 8 h2]
    have hc0 : cmnd (List.replicate 8 (0 : ℚ)) 0 = 1 := cmnd_zero_lag _
    have hc1 : cmnd (List.replicate 8 (0 : ℚ)) 1 = 0 :=
      cmnd_replicate_zero 8 1 one_ne_zero
    have hc2 : cmnd (List.replicate 8 (0 : ℚ)) 2 = 0 :=
      cmnd_replicate_zero 8 2 (by norm_num)
    have hd : interpDenominator (List.replicate 8 (0 : ℚ)) 1 = -2 := by
      unfold interpDenominator
      norm_num [hc0, hc1, hc2]
    simp only [List.length_replicate]
    rw [if_pos (by norm_num : 0 < 1 ∧ 1 < 8 / 2 - 1)]
    simp only [hd, hc0, hc2]
    norm_num
  exact ⟨h, by rw [h]; exact Option.some_ne_none _⟩

/-- Claim C2, amended: for an all-zero frame of at least 6 samples and any
sample rate, `detectPitch` returns the degenerate estimate
`sampleRate / 1.5 = 2·sampleRate/3`, not the absent result the claim
demands (for the silent case the app relies on the upstream RMS gate, not
on the estimator). -/
theorem detectPitch_silent_frame (n : ℕ) (hn : 6 ≤ n) (sampleRate : ℚ) :
    detectPitch (List.replicate n (0 : ℚ)) sampleRate =
      some (2 * sampleRate / 3) := by
  have h2 : 2 ≤ n / 2 := by omega
  unfold detectPitch
  rw [chooseTau_replicate_zero n h2]
  have hc0 : cmnd (List.replicate n (0 : ℚ)) 0 = 1 := cmnd_zero_lag _
  have hc1 : cmnd (List.replicate n (0 : ℚ)) 1 = 0 :=
    cmnd_replicate_zero n 1 one_ne_zero
  have hc2 : cmnd (List.replicate n (0 : ℚ)) 2 = 0 :=
    cmnd_replicate_zero n 2 (by norm_num)
  have hd : interpDenominator (List.replicate n (0 : ℚ)) 1 = -2 := by
    unfold interpDenominator
    norm_num [hc0, hc1, hc2]
  simp only [List.length_replicate]
  rw [if_pos (⟨one_pos, by omega⟩ : 0 < 1 ∧ 1 < n / 2 - 1)]
  simp only [hd, hc0, hc2]
  norm_num
  ring

/-- Claim C2, witness for the amended statement at the concrete frame of
8 zero samples and sample rate 48000. -/
theorem detectPitch_silent_frame_witness :
    (6 : ℕ) ≤ 8 ∧
      detectPitch (List.replicate 8 (0 : ℚ)) 48000 = some (2 * 48000 / 3) :=
  ⟨by norm_num, detectPitch_silent_frame 8 (by norm_num) 48000⟩

/-! ## Claim C8: frames too short for a lag comparison -/

/-- Claim C8, counterexample: the claim demands a fail-fast precondition
violation for frames of fewer than ~4 samples, "rather than silently
returning ... a quiet no-estimate".  The code has no such check: on a
2-sample frame it silently returns `null` (the lag loops are empty, the
fallback minimum stays at its initial value `1 > 0.4`). -/
theorem detectPitch_short_counterexample :
    detectPitch (List.replicate 2 (1 : ℚ)) 44100 = none := by
  unfold detectPitch chooseTau thresholdTau fallbackScan
  norm_num [List.range']

/-- Claim C8, amended: for every frame of fewer than 4 samples and every
sample rate, `detectPitch` silently returns no estimate (`none`); the
function is total and raises no precondition violation. -/
theorem detectPitch_short_frame (buffer : List ℚ) (sampleRate : ℚ)
    (h : buffer.length < 4) :
    detectPitch buffer sampleRate = none := by
  have hlen : buffer.length / 2 - 1 = 0 := by omega
  unfold detectPitch chooseTau thresholdTau fallbackScan
  rw [hlen]
  simp [List.range']

/-- Claim C8, witness for the amended statement at the concrete 2-sample
frame of ones and sample rate 44100. -/
theorem detectPitch_short_frame_witness :
    (List.replicate 2 (1 : ℚ)).length < 4 ∧
      detectPitch (List.replicate 2 (1 : ℚ)) 44100 = none :=
  ⟨by norm_num,
    detectPitch_short_frame (List.replicate 2 (1 : ℚ)) 44100 (by norm_num)⟩

/-! ## Claim C3: invalid frequency handling of the quantizer -/

/-- Claim C3 (code bug, flagged in the spec itself as a known defect): for
every frequency `≤ 0` and every `log2` implementation, `frequencyToMidi`
returns the numeric fallback `0` — a legitimate pitch index (the name of
note C-1) — instead of the absent result the claim requires. -/
theorem frequencyToMidi_invalid_returns_zero (log2 : ℚ → ℚ) (f : ℚ)
    (hf : f ≤ 0) :
    frequencyToMidi log2 f = 0 ∧ midiToNoteName 0 = "C-1" := by
  refine ⟨?_, by decide⟩
  unfold frequencyToMidi
  rw [if_pos hf]

/-- Claim C3, witness at the concrete invalid frequency `0`. -/
theorem frequencyToMidi_invalid_witness :
    frequencyToMidi (fun q => q) 0 = 0 ∧ midiToNoteName 0 = "C-1" :=
  frequencyToMidi_invalid_returns_zero (fun q => q) 0 le_rfl

/-! ## Claim C10: the note-name formatter -/

/-- Claim C10 (confirmed): `midiToNoteName` maps 69 to "A4", 60 to "C4",
and resolves negative indices by the `((m % 12) + 12) % 12` wrap and the
`floor(m/12) − 1` octave, so −1 maps to "B-2"; the wrapped pitch-class
index always lies in `[0, 12)`, hence inside the note-name table. -/
theorem midiToNoteName_spec :
    midiToNoteName 69 = "A4" ∧ midiToNoteName 60 = "C4" ∧
      midiToNoteName (-1) = "B-2" ∧
      ∀ m : ℤ, 0 ≤ noteClassIndex m ∧ noteClassIndex m < 12 := by
  refine ⟨by decide, by decide, by decide, ?_⟩
  intro m
  unfold noteClassIndex
  have h1 : (0 : ℤ) ≤ m.tmod 12 + 12 := by
    rcases le_or_lt 0 m with hm | hm
    · have := Int.tmod_nonneg 12 hm
      omega
    · have h2 : (-m).tmod 12 = -(m.tmod 12) := by
        rw [Int.tmod_def, Int.tmod_def, Int.neg_tdiv]
        ring
      have h3 : (-m).tmod 12 < 12 := Int.tmod_lt_of_pos (-m) (by norm_num)
      omega
  rw [Int.tmod_eq_emod h1 (by norm_num)]
  exact ⟨Int.emod_nonneg _ (by norm_num), Int.emod_lt_of_pos _ (by norm_num)⟩

/-! ## Helper lemmas: the threshold search and the fallback scan -/

theorem find?_range'_least (p : ℕ → Bool) (a n t0 : ℕ) (h1 : a ≤ t0)
    (h2 : t0 < a + n) (h3 : p t0 = true)
    (h4 : ∀ t, a ≤ t → t < t0 → p t = false) :
    (List.range' a n).find? p = some t0 := by
  induction n generalizing a with
  | zero => omega
  | succ k ih =>
    rw [List.range'_succ]
    rcases eq_or_lt_of_le h1 with rfl | hlt
    · exact List.find?_cons_of_pos _ h3
    · rw [List.find?_cons_of_neg _ (by simp [h4 a le_rfl hlt])]
      exact ih (a + 1) hlt (by omega) (fun t ht1 ht2 => h4 t (by omega) ht2)

/-- The loop body of the global-minimum fallback, as a standalone fold for
reasoning with an arbitrary accumulator;
`fallbackScan buffer = minScan (cmnd buffer) (range of lags) (1, none)`
holds by definitional unfolding. -/
def minScan (f : ℕ → ℚ) (l : List ℕ) (acc : ℚ × Option ℕ) : ℚ × Option ℕ :=
  l.foldl (fun acc t => if f t < acc.1 then (f t, some t) else acc) acc

theorem minScan_fst_le (f : ℕ → ℚ) (l : List ℕ) :
    ∀ acc : ℚ × Option ℕ, (minScan f l acc).1 ≤ acc.1 := by
  induction l with
  | nil => intro acc; exact le_rfl
  | cons hd tl ih =>
    intro acc
    show (minScan f tl (if f hd < acc.1 then (f hd, some hd) else acc)).1 ≤ acc.1
    by_cases h : f hd < acc.1
    · rw [if_pos h]
      exact (ih (f hd, some hd)).trans h.le
    · rw [if_neg h]
      exact ih acc

theorem minScan_fst_le_mem (f : ℕ → ℚ) (l : List ℕ) :
    ∀ (acc : ℚ × Option ℕ) (t : ℕ), t ∈ l → (minScan f l acc).1 ≤ f t := by
  induction l with
  | nil => intro acc t ht; cases ht
  | cons hd tl ih =>
    intro acc t ht
    rcases List.mem_cons.mp ht with rfl | ht'
    · show (minScan f tl (if f t < acc.1 then (f t, some t) else acc)).1 ≤ f t
      by_cases h : f t < acc.1
      · rw [if_pos h]
        exact minScan_fst_le f tl (f t, some t)
      · rw [if_neg h]
        exact (minScan_fst_le f tl acc).trans (not_lt.mp h)
    · show (minScan f tl (if f hd < acc.1 then (f hd, some hd) else acc)).1 ≤ f t
      exact ih _ t ht'

theorem minScan_attained (f : ℕ → ℚ) (l : List ℕ) :
    ∀ acc : ℚ × Option ℕ, minScan f l acc = acc ∨
      ∃ t ∈ l, (minScan f l acc).2 = some t ∧ (minScan f l acc).1 = f t := by
  induction l with
  | nil => intro acc; exact Or.inl rfl
  | cons hd tl ih =>
    intro acc
    show minScan f tl (if f hd < acc.1 then (f hd, some hd) else acc) = acc ∨ _
    by_cases h : f hd < acc.1
    · rw [if_pos h]
      right
      rcases ih (f hd, some hd) with hcase | ⟨t, ht, h2, h3⟩
      · refine ⟨hd, List.mem_cons_self hd tl, ?_, ?_⟩
        · show (minScan f tl (if f hd < acc.1 then (f hd, some hd) else acc)).2 = some hd
          rw [if_pos h, hcase]
        · show (minScan f tl (if f hd < acc.1 then (f hd, some hd) else acc)).1 = f hd
          rw [if_pos h, hcase]
      · refine ⟨t, List.mem_cons_of_mem hd ht, ?_, ?_⟩
        · show (minScan f tl (if f hd < acc.1 then (f hd, some hd) else acc)).2 = some t
          rw [if_pos h]
          exact h2
        · show (minScan f tl (if f hd < acc.1 then (f hd, some hd) else acc)).1 = f t
          rw [if_pos h]
          exact h3
    · rw [if_neg h]
      rcases ih acc with hcase | ⟨t, ht, h2, h3⟩
      · exact Or.inl hcase
      · refine Or.inr ⟨t, List.mem_cons_of_mem hd ht, ?_, ?_⟩
        · show (minScan f tl (if f hd < acc.1 then (f hd, some hd) else acc)).2 = some t
          rw [if_neg h]
          exact h2
        · show (minScan f tl (if f hd < acc.1 then (f hd, some hd) else acc)).1 = f t
          rw [if_neg h]
          exact h3

theorem minScan_isSome (f : ℕ → ℚ) (l : List ℕ) :
    ∀ (v : ℚ) (u : ℕ), ((minScan f l (v, some u)).2).isSome = true := by
  induction l with
  | nil => intro v u; rfl
  | cons hd tl ih =>
    intro v u
    show ((minScan f tl (if f hd < (v, some u).1 then (f hd, some hd) else (v, some u))).2).isSome = true
    by_cases h : f hd < (v, some u).1
    · rw [if_pos h]
      exact ih (f hd) hd
    · rw [if_neg h]
      exact ih v u

theorem minScan_none_facts (f : ℕ → ℚ) (l : List ℕ) :
    ∀ v : ℚ, (minScan f l (v, none)).2 = none →
      (minScan f l (v, none)).1 = v ∧ ∀ t ∈ l, v ≤ f t := by
  induction l with
  | nil =>
    intro v _
    exact ⟨rfl, fun t ht => absurd ht (List.not_mem_nil t)⟩
  | cons hd tl ih =>
    intro v h
    by_cases hc : f hd < v
    · exfalso
      have hs : ((minScan f tl (f hd, some hd)).2).isSome = true :=
        minScan_isSome f tl (f hd) hd
      have : (minScan f (hd :: tl) (v, none)).2 = (minScan f tl (f hd, some hd)).2 := by
        show (minScan f tl (if f hd < (v, (none : Option ℕ)).1 then (f hd, some hd) else (v, none))).2 = _
        rw [if_pos hc]
      rw [this] at h
      rw [h] at hs
      cases hs
    · have heq : minScan f (hd :: tl) (v, none) = minScan f tl (v, none) := by
        show minScan f tl (if f hd < (v, (none : Option ℕ)).1 then (f hd, some hd) else (v, none)) = _
        rw [if_neg hc]
      rw [heq] at h ⊢
      obtain ⟨h1, h2⟩ := ih v h
      refine ⟨h1, ?_⟩
      intro t ht
      rcases List.mem_cons.mp ht with rfl | ht'
      · exact not_lt.mp hc
      · exact h2 t ht'

theorem thresholdTau_mem (buffer : List ℚ) (t : ℕ)
    (h : thresholdTau buffer = some t) :
    (1 ≤ t ∧ t < buffer.length / 2) ∧ cmnd buffer t < yinThreshold := by
  unfold thresholdTau at h
  have hm := List.mem_of_find?_eq_some h
  have hp := List.find?_some h
  rw [List.mem_range'_1] at hm
  refine ⟨⟨hm.1, by omega⟩, by simpa using hp⟩

theorem thresholdTau_none (buffer : List ℚ)
    (h : ∀ t, 1 ≤ t → t < buffer.length / 2 → ¬ cmnd buffer t < yinThreshold) :
    thresholdTau buffer = none := by
  unfold thresholdTau
  rw [List.find?_eq_none]
  intro t ht
  rw [List.mem_range'_1] at ht
  simpa using h t ht.1 (by omega)

theorem fallbackScan_eq_minScan (buffer : List ℚ) :
    fallbackScan buffer =
      minScan (cmnd buffer) (List.range' 1 (buffer.length / 2 - 1)) (1, none) :=
  rfl

theorem chooseTau_of_thresholdTau_some (buffer : List ℚ) (t : ℕ)
    (h : thresholdTau buffer = some t) : chooseTau buffer = some t := by
  unfold chooseTau
  rw [h]

theorem chooseTau_of_low_min (buffer : List ℚ)
    (h : thresholdTau buffer = none) (h2 : (fallbackScan buffer).1 ≤ 2 / 5) :
    chooseTau buffer = (fallbackScan buffer).2 := by
  unfold chooseTau
  rw [h]
  simp only []
  rw [if_neg (not_lt.mpr h2)]

theorem chooseTau_of_high_min (buffer : List ℚ)
    (h : thresholdTau buffer = none) (h2 : 2 / 5 < (fallbackScan buffer).1) :
    chooseTau buffer = none := by
  unfold chooseTau
  rw [h]
  simp only []
  rw [if_pos h2]

theorem chooseTau_bounds (buffer : List ℚ) (t : ℕ)
    (h : chooseTau buffer = some t) : 1 ≤ t ∧ t < buffer.length / 2 := by
  unfold chooseTau at h
  cases hth : thresholdTau buffer with
  | some u =>
    rw [hth] at h
    simp only [Option.some.injEq] at h
    subst h
    exact (thresholdTau_mem buffer u hth).1
  | none =>
    rw [hth] at h
    simp only [] at h
    by_cases hs : (fallbackScan buffer).1 > 2 / 5
    · rw [if_pos hs] at h
      cases h
    · rw [if_neg hs] at h
      rcases minScan_attained (cmnd buffer)
          (List.range' 1 (buffer.length / 2 - 1)) (1, none) with hcase | ⟨u, hu, h2, h3⟩
      · rw [← fallbackScan_eq_minScan] at hcase
        rw [hcase] at h
        cases h
      · rw [← fallbackScan_eq_minScan] at h2
        rw [h] at h2
        simp only [Option.some.injEq] at h2
        subst h2
        rw [List.mem_range'_1] at hu
        omega

theorem detectPitch_eq_none_iff (buffer : List ℚ) (sampleRate : ℚ) :
    detectPitch buffer sampleRate = none ↔ chooseTau buffer = none := by
  constructor
  · intro h
    by_contra hc
    obtain ⟨tau, htau⟩ := Option.ne_none_iff_exists'.mp hc
    have hb := chooseTau_bounds buffer tau htau
    unfold detectPitch at h
    rw [htau] at h
    simp only [] at h
    by_cases hin : 0 < tau ∧ tau < buffer.length / 2 - 1
    · rw [if_pos hin] at h
      by_cases hden : interpDenominator buffer tau ≠ 0
      · rw [if_pos hden] at h
        cases h
      · rw [if_neg hden, if_pos (by omega : 0 < tau)] at h
        cases h
    · rw [if_neg hin, if_pos (by omega : 0 < tau)] at h
      cases h
  · intro h
    unfold detectPitch
    rw [h]

/-! ## Claim C9: defensive handling of numeric degeneracies -/

/-- Claim C9 (confirmed): `detectPitch` is total by construction and
handles its two numeric degeneracies in place: when the running sum of the
normalization is zero the divisor is guarded to `1` (so the normalized
value is just `d(τ)·τ`), and when the chosen lag sits at a boundary or the
parabolic-interpolation denominator is zero, interpolation is skipped and
the unrefined `sampleRate / τ` is returned. -/
theorem detectPitch_degenerate_guards (buffer : List ℚ) (sampleRate : ℚ)
    (tau : ℕ) :
    (tau ≠ 0 → runningSumAt buffer tau = 0 →
      cmnd buffer tau = diffAt buffer tau * tau) ∧
    (chooseTau buffer = some tau →
      (interpDenominator buffer tau = 0 ∨ buffer.length / 2 - 1 ≤ tau) →
      detectPitch buffer sampleRate = some (sampleRate / tau)) := by
  constructor
  · intro h0 hrs
    unfold cmnd
    rw [if_neg h0, if_pos hrs, div_one]
  · intro hc hdeg
    have hb := chooseTau_bounds buffer tau hc
    unfold detectPitch
    rw [hc]
    simp only []
    by_cases hin : 0 < tau ∧ tau < buffer.length / 2 - 1
    · have hden : interpDenominator buffer tau = 0 := by
        rcases hdeg with hden | hbd
        · exact hden
        · exact absurd hbd (by omega)
      rw [if_pos hin, if_neg (not_not_intro hden), if_pos (by omega : 0 < tau)]
    · rw [if_neg hin, if_pos (by omega : 0 < tau)]

/-- Claim C9, witness: on the all-zero 4-sample frame the selected lag 1
is at the boundary (`⌊4/2⌋ − 1 = 1`), so interpolation is skipped and the
unrefined `441 / 1` is returned. -/
theorem detectPitch_degenerate_guards_witness :
    chooseTau (List.replicate 4 (0 : ℚ)) = some 1 ∧
      detectPitch (List.replicate 4 (0 : ℚ)) 441 = some (441 / ((1 : ℕ) : ℚ)) := by
  have hc : chooseTau (List.replicate 4 (0 : ℚ)) = some 1 :=
    chooseTau_replicate_zero 4 (by norm_num)
  exact ⟨hc,
    (detectPitch_degenerate_guards (List.replicate 4 (0 : ℚ)) 441 1).2 hc
      (Or.inr (by simp))⟩

/-! ## Claim C7: the lag-selection rule -/

/-- Claim C7 (confirmed): `detectPitch` selects the smallest lag `τ ≥ 1`
whose normalized difference is below the `0.15` threshold; when no lag
qualifies it selects a global minimizer of the normalized difference over
`τ ≥ 1` and accepts it only when that minimum is `≤ 0.4`, otherwise it
reports no estimate — and `detectPitch` returns `none` exactly when the
selection fails. -/
theorem detectPitch_selection_rule (buffer : List ℚ) (sampleRate : ℚ) :
    (∀ t0, 1 ≤ t0 → t0 < buffer.length / 2 → cmnd buffer t0 < yinThreshold →
      (∀ t, 1 ≤ t → t < t0 → ¬ cmnd buffer t < yinThreshold) →
      chooseTau buffer = some t0) ∧
    ((∀ t, 1 ≤ t → t < buffer.length / 2 → ¬ cmnd buffer t < yinThreshold) →
      ((∃ t, (1 ≤ t ∧ t < buffer.length / 2) ∧ chooseTau buffer = some t ∧
          cmnd buffer t ≤ 2 / 5 ∧
          ∀ u, 1 ≤ u → u < buffer.length / 2 → cmnd buffer t ≤ cmnd buffer u) ∨
        (chooseTau buffer = none ∧
          ∀ t, 1 ≤ t → t < buffer.length / 2 → 2 / 5 < cmnd buffer t))) ∧
    (detectPitch buffer sampleRate = none ↔ chooseTau buffer = none) := by
  refine ⟨?_, ?_, detectPitch_eq_none_iff buffer sampleRate⟩
  · intro t0 h1 h2 hc hleast
    apply chooseTau_of_thresholdTau_some
    unfold thresholdTau
    apply find?_range'_least _ 1 _ t0 h1 (by omega) (by simpa using hc)
    intro t ht1 ht2
    simpa using hleast t ht1 ht2
  · intro hall
    have hth : thresholdTau buffer = none := thresholdTau_none buffer hall
    cases hs2 : (fallbackScan buffer).2 with
    | none =>
      right
      have hfacts := minScan_none_facts (cmnd buffer)
        (List.range' 1 (buffer.length / 2 - 1)) 1
        (by rw [← fallbackScan_eq_minScan]; exact hs2)
      have h1 : (fallbackScan buffer).1 = 1 := by
        rw [fallbackScan_eq_minScan]; exact hfacts.1
      refine ⟨chooseTau_of_high_min buffer hth (by rw [h1]; norm_num), ?_⟩
      intro t ht1 ht2
      have hmem : t ∈ List.range' 1 (buffer.length / 2 - 1) := by
        rw [List.mem_range'_1]; omega
      have := hfacts.2 t hmem
      linarith
    | some t =>
      by_cases hmin : (fallbackScan buffer).1 ≤ 2 / 5
      · left
        rcases minScan_attained (cmnd buffer)
            (List.range' 1 (buffer.length / 2 - 1)) (1, none) with hcase | ⟨u, hu, h2, h3⟩
        · rw [← fallbackScan_eq_minScan] at hcase
          rw [hcase] at hs2
          cases hs2
        · rw [← fallbackScan_eq_minScan] at h2 h3
          rw [hs2] at h2
          simp only [Option.some.injEq] at h2
          subst h2
          rw [List.mem_range'_1] at hu
          refine ⟨t, ⟨hu.1, by omega⟩, ?_, ?_, ?_⟩
          · rw [chooseTau_of_low_min buffer hth hmin, hs2]
          · rw [← h3]; exact hmin
          · intro u hu1 hu2
            have hmem : u ∈ List.range' 1 (buffer.length / 2 - 1) := by
              rw [List.mem_range'_1]; omega
            have := minScan_fst_le_mem (cmnd buffer)
              (List.range' 1 (buffer.length / 2 - 1)) (1, none) u hmem
            rw [← fallbackScan_eq_minScan] at this
            rw [← h3]
            exact this
      · right
        refine ⟨chooseTau_of_high_min buffer hth (lt_of_not_le hmin), ?_⟩
        intro u hu1 hu2
        have hmem : u ∈ List.range' 1 (buffer.length / 2 - 1) := by
          rw [List.mem_range'_1]; omega
        have hle := minScan_fst_le_mem (cmnd buffer)
          (List.range' 1 (buffer.length / 2 - 1)) (1, none) u hmem
        rw [← fallbackScan_eq_minScan] at hle
        have := lt_of_not_le hmin
        linarith

/-- Claim C7, witness: on the all-zero 8-sample frame the smallest lag
below the threshold is 1, and the selection rule indeed picks it. -/
theorem detectPitch_selection_rule_witness :
    chooseTau (List.replicate 8 (0 : ℚ)) = some 1 := by
  apply (detectPitch_selection_rule (List.replicate 8 (0 : ℚ)) 48000).1 1 le_rfl
  · simp
  · rw [cmnd_replicate_zero 8 1 one_ne_zero]
    norm_num [yinThreshold]
  · intro t ht1 ht2
    omega

/-! ## Helper lemmas: the tracker step -/

theorem playEvents_append (a : Option ℤ) (es1 es2 : List NoteEvent) :
    playEvents a (es1 ++ es2) =
      match playEvents a es1 with
      | none => none
      | some b => playEvents b es2 := by
  induction es1 generalizing a with
  | nil => simp [playEvents]
  | cons e rest ih =>
    cases a with
    | none =>
      cases e with
      | attack m => simpa [playEvents] using ih (some m)
      | release m => simp [playEvents]
    | some x =>
      cases e with
      | attack m => simp [playEvents]
      | release m =>
        by_cases h : x = m
        · simpa [playEvents, h] using ih none
        · simp [playEvents, h]

theorem audioLoopStep_monophonic (cfg : LoopConfig) (inp : TickInput)
    (s : LoopState) :
    playEvents s.lastMidi (audioLoopStep cfg inp s).2 =
      some (audioLoopStep cfg inp s).1.lastMidi := by
  by_cases hpb : inp.isPlayingBack
  · simp [audioLoopStep, hpb, playEvents]
  · by_cases harm : armedTick cfg inp
    · cases hp : cfg.pitchOf inp.buffer with
      | none => simp [audioLoopStep, hpb, harm, hp, playEvents]
      | some midi =>
        by_cases he : some midi = s.lastMidi
        · simp [audioLoopStep, hpb, harm, hp, ← he, playEvents]
        · cases hl : s.lastMidi with
          | some prev =>
            have hne : ¬ midi = prev := by
              rw [hl] at he
              simpa using he
            simp [audioLoopStep, hpb, harm, hp, hl, hne, playEvents]
          | none => simp [audioLoopStep, hpb, harm, hp, he, hl, playEvents]
    · cases hl : s.lastMidi with
      | none => simp [audioLoopStep, hpb, harm, hl, playEvents]
      | some prev =>
        by_cases hm : inp.mode = WorkstationMode.record
        · cases ha : s.activeNoteStart <;>
            simp [audioLoopStep, hpb, harm, hl, hm, ha, playEvents]
        · simp [audioLoopStep, hpb, harm, hl, hm, playEvents]

theorem runLoop_monophonic (cfg : LoopConfig) (inputs : List TickInput) :
    ∀ s : LoopState,
      playEvents s.lastMidi (runLoop cfg inputs s).2 =
        some (runLoop cfg inputs s).1.lastMidi := by
  induction inputs with
  | nil => intro s; simp [runLoop, playEvents]
  | cons inp rest ih =>
    intro s
    show playEvents s.lastMidi
        ((audioLoopStep cfg inp s).2 ++ (runLoop cfg rest (audioLoopStep cfg inp s).1).2) = _
    rw [playEvents_append, audioLoopStep_monophonic]
    exact ih (audioLoopStep cfg inp s).1

/-! ## Claim C1: strict monophony of the event stream -/

/-- Claim C1 (confirmed): over every sequence of ticks from the initial
state, the emitted event stream replays monophonically — every Attack
happens with no pitch active (a Release of the previously active index is
emitted first, within the same tick when the index changes), so at most
one pitch index is active at any time; the active pitch after the whole
stream is exactly the tracker's held `lastMidi`. -/
theorem noteEventTracker_monophonic (cfg : LoopConfig)
    (inputs : List TickInput) :
    playEvents none (runLoop cfg inputs initialLoopState).2 =
      some (runLoop cfg inputs initialLoopState).1.lastMidi :=
  runLoop_monophonic cfg inputs initialLoopState

/-! ## Claim C4: leaving a note-producing mode releases the held note -/

/-- Claim C4 (confirmed): on any tick whose mode is neither MIDI nor
RECORD (and that is not suspended by playback, which skips the tracker
entirely) while a note is held, the tracker emits exactly one Release for
the held index and clears the held state. -/
theorem modeSwitch_releases_held (cfg : LoopConfig) (inp : TickInput)
    (s : LoopState) (m : ℤ) (hpb : inp.isPlayingBack = false)
    (hmidi : inp.mode ≠ WorkstationMode.midi)
    (hrec : inp.mode ≠ WorkstationMode.record)
    (hheld : s.lastMidi = some m) :
    (audioLoopStep cfg inp s).2 = [NoteEvent.release m] ∧
      (audioLoopStep cfg inp s).1.lastMidi = none := by
  have harm : ¬ armedTick cfg inp := by
    intro h
    rcases h.2 with h2 | h2
    · exact hmidi h2
    · exact hrec h2
  constructor <;> simp [audioLoopStep, hpb, harm, hheld, hrec]

/-- Claim C4, witness: a held A4 (index 69) is released on an IDLE tick. -/
theorem modeSwitch_releases_held_witness :
    (audioLoopStep ⟨1/100, 1, 0, fun _ => none⟩
        ⟨[], WorkstationMode.idle, false, 0⟩ ⟨some 69, none, []⟩).2 =
      [NoteEvent.release 69] ∧
      (audioLoopStep ⟨1/100, 1, 0, fun _ => none⟩
        ⟨[], WorkstationMode.idle, false, 0⟩ ⟨some 69, none, []⟩).1.lastMidi = none :=
  modeSwitch_releases_held _ _ _ 69 rfl (by decide) (by decide) rfl

/-! ## Claim C6: edge-triggered on pitch change -/

theorem audioLoopStep_same_pitch (cfg : LoopConfig) (inp : TickInput)
    (s : LoopState) (m : ℤ) (hpb : inp.isPlayingBack = false)
    (harm : armedTick cfg inp) (hp : cfg.pitchOf inp.buffer = some m)
    (hl : s.lastMidi = some m) :
    audioLoopStep cfg inp s = (s, []) := by
  simp [audioLoopStep, hpb, harm, hp, hl]

theorem runLoop_cons (cfg : LoopConfig) (inp : TickInput)
    (rest : List TickInput) (s : LoopState) :
    runLoop cfg (inp :: rest) s =
      ((runLoop cfg rest (audioLoopStep cfg inp s).1).1,
        (audioLoopStep cfg inp s).2 ++
          (runLoop cfg rest (audioLoopStep cfg inp s).1).2) :=
  rfl

theorem runLoop_steady (cfg : LoopConfig) (inp : TickInput) (s : LoopState)
    (h : audioLoopStep cfg inp s = (s, [])) :
    ∀ k, runLoop cfg (List.replicate k inp) s = (s, []) := by
  intro k
  induction k with
  | zero => rfl
  | succ n ih =>
    rw [List.replicate_succ, runLoop_cons, h]
    simp [ih]

/-- Claim C6 (confirmed): fed the same armed pitch index on 10 consecutive
ticks from the initial state, the tracker emits exactly one Attack (on the
first tick) and zero Releases — the whole 10-tick event stream is the
single event `Attack m`. -/
theorem tracker_edge_triggered (cfg : LoopConfig) (inp : TickInput) (m : ℤ)
    (hpb : inp.isPlayingBack = false) (harm : armedTick cfg inp)
    (hp : cfg.pitchOf inp.buffer = some m) :
    (runLoop cfg (List.replicate 10 inp) initialLoopState).2 =
      [NoteEvent.attack m] := by
  have hl1 : (audioLoopStep cfg inp initialLoopState).1.lastMidi = some m := by
    simp [audioLoopStep, hpb, harm, hp, initialLoopState]
  have hev1 : (audioLoopStep cfg inp initialLoopState).2 = [NoteEvent.attack m] := by
    simp [audioLoopStep, hpb, harm, hp, initialLoopState]
  have hsteady := runLoop_steady cfg inp (audioLoopStep cfg inp initialLoopState).1
    (audioLoopStep_same_pitch cfg inp _ m hpb harm hp hl1) 9
  rw [show List.replicate 10 inp = inp :: List.replicate 9 inp from rfl,
    runLoop_cons]
  simp only [hsteady, hev1, List.append_nil]

/-- Claim C6, witness: ten armed MIDI-mode ticks with constant pitch
index 69 from the initial state emit exactly one Attack. -/
theorem tracker_edge_triggered_witness :
    (runLoop ⟨1/100, 1, 0, fun _ => some 69⟩
        (List.replicate 10 ⟨[1], WorkstationMode.midi, false, 0⟩)
        initialLoopState).2 = [NoteEvent.attack 69] := by
  apply tracker_edge_triggered _ _ 69 rfl _ rfl
  unfold armedTick gateOpen
  refine ⟨Or.inr ?_, Or.inl rfl⟩
  norm_num [meanSquare]

/-! ## Claim C5: the minimum-duration filter of the segmenter -/

/-- Claim C5 (confirmed): a completed note is appended to the recording's
note list exactly when its duration reaches `MIN_NOTE_DURATION = 0.05` —
at the Release close of a tick, at the change-of-note close of a tick, and
at the `stop()` flush; in particular a 0.03 s note is discarded and a
0.05 s note is retained. -/
theorem recordingSegmenter_duration_filter :
    (∀ (cfg : LoopConfig) (inp : TickInput) (s : LoopState) (m : ℤ)
        (a : ActiveNoteStart),
      inp.isPlayingBack = false →
      ¬ gateOpen cfg.sensitivity (meanSquare cfg.micBoost inp.buffer) →
      inp.mode = WorkstationMode.record →
      s.lastMidi = some m → s.activeNoteStart = some a →
      (minNoteDuration ≤ inp.now - cfg.recordingStartTime - a.start →
        (audioLoopStep cfg inp s).1.recordingNotes =
          s.recordingNotes ++
            [⟨a.note, a.time, inp.now - cfg.recordingStartTime - a.start⟩]) ∧
      (inp.now - cfg.recordingStartTime - a.start < minNoteDuration →
        (audioLoopStep cfg inp s).1.recordingNotes = s.recordingNotes)) ∧
    (∀ (cfg : LoopConfig) (inp : TickInput) (s : LoopState) (m p : ℤ)
        (a : ActiveNoteStart),
      inp.isPlayingBack = false → armedTick cfg inp →
      cfg.pitchOf inp.buffer = some p → ¬ p = m →
      inp.mode = WorkstationMode.record →
      s.lastMidi = some m → s.activeNoteStart = some a →
      (minNoteDuration ≤ inp.now - cfg.recordingStartTime - a.start →
        (audioLoopStep cfg inp s).1.recordingNotes =
          s.recordingNotes ++
            [⟨a.note, a.time, inp.now - cfg.recordingStartTime - a.start⟩]) ∧
      (inp.now - cfg.recordingStartTime - a.start < minNoteDuration →
        (audioLoopStep cfg inp s).1.recordingNotes = s.recordingNotes)) ∧
    (∀ (recStart stopTime : ℚ) (a : ActiveNoteStart)
        (notes : List RecordedNote),
      (minNoteDuration ≤ stopTime - recStart - a.start →
        stopFlush recStart stopTime (some a) notes =
          notes ++ [⟨a.note, a.time, stopTime - recStart - a.start⟩]) ∧
      (stopTime - recStart - a.start < minNoteDuration →
        stopFlush recStart stopTime (some a) notes = notes)) ∧
    stopFlush 0 (3/100) (some ⟨"A4", 0, 0⟩) [] = [] ∧
    stopFlush 0 (1/20) (some ⟨"A4", 0, 0⟩) [] = [⟨"A4", 0, 1/20⟩] := by
  refine ⟨?_, ?_, ?_, ?_, ?_⟩
  · intro cfg inp s m a hpb hgate hmode hl ha
    have harm : ¬ armedTick cfg inp := fun h => hgate h.1
    constructor
    · intro hd
      simp [audioLoopStep, hpb, harm, hl, hmode, ha, appendIfSustained, hd]
    · intro hd
      simp [audioLoopStep, hpb, harm, hl, hmode, ha, appendIfSustained,
        not_le.mpr hd]
  · intro cfg inp s m p a hpb harm hp hne hmode hl ha
    constructor
    · intro hd
      simp [audioLoopStep, hpb, harm, hp, hl, hmode, ha, hne,
        appendIfSustained, hd]
    · intro hd
      simp [audioLoopStep, hpb, harm, hp, hl, hmode, ha, hne,
        appendIfSustained, not_le.mpr hd]
  · intro recStart stopTime a notes
    constructor
    · intro hd
      simp [stopFlush, appendIfSustained, hd]
    · intro hd
      simp [stopFlush, appendIfSustained, not_le.mpr hd]
  · norm_num [stopFlush, appendIfSustained, minNoteDuration]
  · norm_num [stopFlush, appendIfSustained, minNoteDuration]

/-- Claim C5, witness: flushing an open note of exactly 0.05 s at stop
time retains it. -/
theorem recordingSegmenter_duration_filter_witness :
    stopFlush 0 (1/20) (some ⟨"A4", 0, 0⟩) [] =
      [⟨"A4", 0, 1/20 - 0 - 0⟩] :=
  (recordingSegmenter_duration_filter.2.2.1 0 (1/20) ⟨"A4", 0, 0⟩ []).1
    (by norm_num [minNoteDuration])
